import Mathlib

/-!
Verification of the UTF-C codec (a shallow embedding of `go/utfc.go` from the
denull/utf-c repository).

Strings are modelled as lists of Unicode scalar values (`List Nat`), byte
buffers as lists of byte values (`List Nat`, each < 256).  All arithmetic on
codepoints inside the range helpers is done on `Int`, matching Go's `int`
(the helpers can return `-1`); the encoder/decoder loops work on `Nat`, since
every Go value there is provably nonnegative.  Go's `byte(x)` conversion is
`byteOf` (truncation to the low 8 bits).  Go's `string(rune(cp))` conversion,
which replaces invalid rune values by U+FFFD, is `goRune`.
-/

namespace UTFC

/-- Constant `maxLatinCp` of the Go source: codepoints up to here keep `offs = 0`. -/
def maxLatinCp : Nat := 0x02FF

/-- Constant `min21BitCp`: characters from this codepoint on use the long (21-bit) mode. -/
def min21BitCp : Nat := 0x2800

/-- Constant `offsMask13Bit`. -/
def offsMask13Bit : Nat := 0xFFFFFF80

/-- Constant `offsMask21Bit`. -/
def offsMask21Bit : Nat := 0xFFFF8000

/-- Marker bits `0b11000000` of the 1-byte auxiliary-alphabet variant. -/
def markerAux : Nat := 0b11000000

/-- Marker bits `0b10000000` of the 2-byte 13-bit variant. -/
def marker13Bit : Nat := 0b10000000

/-- Marker bits `0b10100000` of the 3-byte 21-bit variant. -/
def marker21Bit : Nat := 0b10100000

/-- Marker bits `0b10110000` of the 2-byte extra-ranges variant. -/
def markerExtra : Nat := 0b10110000

/-- Constant `offsInitAux`: initial auxiliary offset (Latin-1 Supplement). -/
def offsInitAux : Nat := 0x00C0

/-- The `auxOffset` map of the Go source, as an association list. -/
def auxOffset : List (Nat × Nat) :=
  [(0x0080, offsInitAux), (0x0380, 0x0391), (0x0400, 0x0410), (0x0580, 0x05BE),
   (0x0530, 0x0531), (0x0600, 0x060B), (0x0900, 0x090D), (0x0980, 0x098F),
   (0x0A00, 0x0A02), (0x0A80, 0x0A8F), (0x0B00, 0x0B0F), (0x0B80, 0x0B8E),
   (0x0C80, 0x0C8E), (0x0D00, 0x0D0E), (0x0D80, 0x0D9B), (0x0E00, 0x0E01),
   (0x0E80, 0x0E81), (0x0F00, 0x0F40), (0x0F80, 0x0F90), (0x1080, 0x10B0),
   (0x3000, 0x3040)]

/-- Go `getAuxOffset`: look `offs` up in the `auxOffset` map, defaulting to `offs`. -/
def getAuxOffset (offs : Nat) : Nat :=
  match auxOffset.find? (fun p => p.1 == offs) with
  | some p => p.2
  | none => offs

/-- Go `rangeHK`: the Hiragana and Katakana range. -/
def rangeHK : Nat × Nat := (0x3000, 0x3100)

/-- Go `rangesLatin`.  Intervals are half-open `[lo, hi)`; note that the last
entry `(0x2D, 0x2C)` is written exactly as in the source, where `hi < lo`. -/
def rangesLatin : List (Int × Int) :=
  [(0x41, 0x5B), (0x61, 0x7B), (0x30, 0x3A), (0x20, 0x21), (0x2D, 0x2C)]

/-- Go `rangesExtra`: the six extra ranges (the second is `rangeHK`). -/
def rangesExtra : List (Int × Int) :=
  [(0x2000, 0x2800), ((rangeHK.1 : Int), (rangeHK.2 : Int)), (0xFE00, 0xFE10),
   (0x1F170, 0x1F200), (0x1F300, 0x1F700), (0x1F900, 0x1FA00)]

/-- Go `inRanges`: does `cp` fall in one of the half-open intervals? -/
def inRanges (cp : Int) : List (Int × Int) → Bool
  | [] => false
  | r :: rest => if r.1 ≤ cp ∧ cp < r.2 then true else inRanges cp rest

/-- The loop of Go `encodeRanges` with its running accumulator `v`. -/
def encodeRangesFrom (cp : Int) (v : Int) : List (Int × Int) → Int
  | [] => -1
  | r :: rest =>
    if r.1 ≤ cp ∧ cp < r.2 then v + (cp - r.1)
    else encodeRangesFrom cp (v + (r.2 - r.1)) rest

/-- Go `encodeRanges`: flatten the union of ranges into a 0-based index
(`-1` when `cp` is in none of them). -/
def encodeRanges (cp : Int) (ranges : List (Int × Int)) : Int :=
  encodeRangesFrom cp 0 ranges

/-- Go `decodeRanges`: inverse of `encodeRanges` (`-1` when out of range). -/
def decodeRanges (v : Int) : List (Int × Int) → Int
  | [] => -1
  | r :: rest => if v < r.2 - r.1 then r.1 + v else decodeRanges (v - (r.2 - r.1)) rest

/-- The codec state shared by `Encode` and `Decode`: the local variables
`offs`, `auxOffs`, `is21Bit` of the Go source. -/
structure State where
  offs : Nat
  auxOffs : Nat
  is21Bit : Bool
deriving DecidableEq

/-- The initial state of both Go loops: `offs = 0`, `auxOffs = offsInitAux`,
`is21Bit = false`. -/
def initState : State := ⟨0, offsInitAux, false⟩

/-- Go's `byte(x)` conversion of a nonnegative `int`: keep the low 8 bits. -/
def byteOf (x : Nat) : Nat := x % 256

/-- Go's `string(rune(i))` conversion of a single value: an invalid rune value
(negative, above 0x10FFFF, or a surrogate) becomes U+FFFD. -/
def goRune (i : Int) : Nat :=
  if 0 ≤ i ∧ i ≤ 0x10FFFF ∧ (i < 0xD800 ∨ 0xDFFF < i) then i.toNat else 0xFFFD

/-- One iteration of the Go `Encode` loop: process codepoint `cp` in state
`st`, returning the emitted bytes and the next state.  The branch structure
mirrors the source; in the extra-ranges branch, the leading byte is
`markerExtra | (1 + extra>>8)` because Go's shift binds tighter than `+`. -/
def encodeStep (st : State) (cp : Nat) : List Nat × State :=
  if st.auxOffs = 0 ∧ inRanges (Int.ofNat cp) rangesLatin = true then
    ([byteOf (markerAux ||| (encodeRanges (Int.ofNat cp) rangesLatin).toNat)], st)
  else if st.auxOffs ≠ 0 ∧ st.auxOffs ≤ cp ∧ cp ≤ st.auxOffs + 0x3F then
    ([byteOf (markerAux ||| (cp - st.auxOffs))], st)
  else if inRanges (Int.ofNat cp) rangesExtra = true then
    let newOffs := cp &&& offsMask13Bit
    if st.is21Bit = false ∧ newOffs = st.offs then
      ([byteOf (cp &&& 0x7F)], st)
    else
      let extra := (encodeRanges (Int.ofNat cp) rangesExtra).toNat
      let bytes := [byteOf (markerExtra ||| (1 + (extra >>> 8))), byteOf extra]
      if rangeHK.1 ≤ cp ∧ cp < rangeHK.2 then
        (bytes, ⟨newOffs, getAuxOffset st.offs, false⟩)
      else
        (bytes, st)
  else if min21BitCp ≤ cp then
    let cp2 := cp - min21BitCp
    let newOffs := cp2 &&& offsMask21Bit
    if st.is21Bit = true ∧ newOffs = st.offs then
      ([byteOf ((cp2 >>> 8) &&& 0x7F), byteOf cp2], st)
    else
      ([byteOf (marker21Bit ||| (cp2 >>> 16)), byteOf (cp2 >>> 8), byteOf cp2],
       ⟨newOffs, st.offs, true⟩)
  else
    let newOffs := cp &&& offsMask13Bit
    if st.is21Bit = false ∧ newOffs = st.offs then
      ([byteOf (cp &&& 0x7F)], st)
    else
      ([byteOf (marker13Bit ||| (cp >>> 8)), byteOf (cp &&& 0xFF)],
       ⟨if cp ≤ maxLatinCp then 0 else newOffs, getAuxOffset st.offs, false⟩)

/-- The Go `Encode` loop over a whole codepoint sequence, also returning the
final state. -/
def encodeRun (st : State) : List Nat → List Nat × State
  | [] => ([], st)
  | cp :: rest =>
    let s := encodeStep st cp
    let r := encodeRun s.2 rest
    (s.1 ++ r.1, r.2)

/-- Go `Encode`: convert a codepoint sequence to a UTF-C byte sequence. -/
def Encode (s : List Nat) : List Nat := (encodeRun initState s).1

/-- The Go `Decode` loop, also returning the final state.  Reading a
continuation byte past the end of the buffer (a Go panic) yields `none`. -/
def decodeRun (st : State) : List Nat → Option (List Nat × State)
  | [] => some ([], st)
  | b :: rest =>
    if b &&& markerAux = markerAux then
      let cp : Int :=
        if st.auxOffs = 0 then decodeRanges (Int.ofNat (b ^^^ markerAux)) rangesLatin
        else Int.ofNat st.auxOffs + Int.ofNat (b ^^^ markerAux)
      Option.map (fun p => (goRune cp :: p.1, p.2)) (decodeRun st rest)
    else if b &&& markerExtra = markerExtra then
      match rest with
      | [] => none
      | b2 :: rest2 =>
        let cp := decodeRanges (Int.ofNat ((b ^^^ markerExtra) <<< 8 ||| b2)) rangesExtra
        let st' :=
          if Int.ofNat rangeHK.1 ≤ cp ∧ cp < Int.ofNat rangeHK.2 then
            State.mk (cp.toNat &&& offsMask13Bit) (getAuxOffset st.offs) false
          else st
        Option.map (fun p => (goRune cp :: p.1, p.2)) (decodeRun st' rest2)
    else if b &&& marker21Bit = marker21Bit then
      match rest with
      | [] => none
      | b2 :: rest2 =>
        match rest2 with
        | [] => none
        | b3 :: rest3 =>
          let v := (b ^^^ marker21Bit) <<< 16 ||| b2 <<< 8 ||| b3
          Option.map (fun p => (goRune (Int.ofNat (v + min21BitCp)) :: p.1, p.2))
            (decodeRun (State.mk (v &&& offsMask21Bit) st.offs true) rest3)
    else if b &&& marker13Bit = marker13Bit then
      match rest with
      | [] => none
      | b2 :: rest2 =>
        let cp := (b ^^^ marker13Bit) <<< 8 ||| b2
        Option.map (fun p => (goRune (Int.ofNat cp) :: p.1, p.2))
          (decodeRun
            (State.mk (if cp ≤ maxLatinCp then 0 else cp &&& offsMask13Bit)
              (getAuxOffset st.offs) false) rest2)
    else if st.is21Bit = true then
      match rest with
      | [] => none
      | b2 :: rest2 =>
        Option.map (fun p => (goRune (Int.ofNat (min21BitCp + (st.offs ||| b <<< 8 ||| b2))) :: p.1, p.2))
          (decodeRun st rest2)
    else
      Option.map (fun p => (goRune (Int.ofNat (st.offs ||| b)) :: p.1, p.2)) (decodeRun st rest)

/-- Go `Decode`: convert a UTF-C byte sequence back to a codepoint sequence;
`none` models the Go panic on a truncated buffer. -/
def Decode (buf : List Nat) : Option (List Nat) :=
  Option.map Prod.fst (decodeRun initState buf)

/-- A valid Unicode scalar value: at most 0x10FFFF and not a surrogate. -/
abbrev ValidCp (c : Nat) : Prop := c ≤ 0x10FFFF ∧ (c < 0xD800 ∨ 0xDFFF < c)

/-- A valid input to the encoder: a sequence of Unicode scalar values. -/
abbrev ValidStr (s : List Nat) : Prop := ∀ c ∈ s, ValidCp c

/-- Total length in bytes of the coding sequence started by lead byte `b` in
state `st`, read off the branch structure of the Go decoder. -/
def requiredLen (st : State) (b : Nat) : Nat :=
  if b &&& markerAux = markerAux then 1
  else if b &&& markerExtra = markerExtra then 2
  else if b &&& marker21Bit = marker21Bit then 3
  else if b &&& marker13Bit = marker13Bit then 2
  else if st.is21Bit = true then 2
  else 1

lemma encodeStep_ascii : ∀ cp : Nat, cp < 0x80 → encodeStep initState cp = ([cp], initState) := by
  decide

lemma encodeRun_ascii : ∀ s : List Nat, (∀ c ∈ s, c ≤ 0x7F) →
    encodeRun initState s = (s, initState) := by
  intro s
  induction s with
  | nil => intro _; rfl
  | cons c cs ih =>
    intro h
    have hc : encodeStep initState c = ([c], initState) :=
      encodeStep_ascii c (Nat.lt_succ_of_le (h c (by simp)))
    have hcs := ih (fun x hx => h x (by simp [hx]))
    simp [encodeRun, hc, hcs]

lemma encodeStep_length_le : ∀ st cp, (encodeStep st cp).1.length ≤ 3 := by
  intro st cp
  unfold encodeStep
  dsimp only
  split_ifs <;> simp

lemma encodeRun_length_le : ∀ s st, (encodeRun st s).1.length ≤ 3 * s.length := by
  intro s
  induction s with
  | nil => intro st; simp [encodeRun]
  | cons c cs ih =>
    intro st
    have h1 := encodeStep_length_le st c
    have h2 := ih (encodeStep st c).2
    simp only [encodeRun, List.length_append, List.length_cons]
    omega

lemma encodeRun_append : ∀ u : List Nat, ∀ st v,
    encodeRun st (u ++ v) =
      ((encodeRun st u).1 ++ (encodeRun (encodeRun st u).2 v).1,
       (encodeRun (encodeRun st u).2 v).2) := by
  intro u
  induction u with
  | nil => intro st v; simp [encodeRun]
  | cons c cs ih =>
    intro st v
    simp [encodeRun, ih (encodeStep st c).2 v]

/-- Claim C1.  The round-trip property `Decode (Encode s) = s` fails on the Go
source: the sequence consisting of the single codepoint U+2000 encodes to the
two EXTRA bytes `0xB1 0x00`, which decode to U+2100.  (The encoder computes
the lead byte as `markerExtra | (1 + (extra >> 8))` — Go's shift binds tighter
than `+` — while the decoder reconstructs the index as
`(lead ^ markerExtra) << 8 | low`, which is `extra + 0x100`.) -/
theorem c1_roundtrip_fails_at_U2000 :
    Encode [0x2000] = [0xB1, 0x00] ∧
    Decode (Encode [0x2000]) = some [0x2100] ∧
    Decode (Encode [0x2000]) ≠ some [0x2000] := by
  refine ⟨by decide, by decide, by decide⟩

/-- Claim C2.  ASCII identity: a sequence whose codepoints all lie in
U+0000..U+007F encodes to exactly its own (ASCII/UTF-8) byte values; in
particular this covers sequences drawn from U+0001..U+001F and U+007F. -/
theorem c2_ascii_identity (s : List Nat) (h : ∀ c ∈ s, c ≤ 0x7F) : Encode s = s := by
  unfold Encode
  rw [encodeRun_ascii s h]

/-- Witness for C2 at the concrete input "Hi" = [0x48, 0x69]. -/
theorem c2_ascii_identity_witness :
    (∀ c ∈ [0x48, 0x69], c ≤ 0x7F) ∧ Encode [0x48, 0x69] = [0x48, 0x69] :=
  ⟨by decide, c2_ascii_identity [0x48, 0x69] (by decide)⟩

/-- Claim C6.  Size bound: a valid input of n codepoints encodes to at most
3·n bytes. -/
theorem c6_size_bound (s : List Nat) (_h : ValidStr s) :
    (Encode s).length ≤ 3 * s.length := by
  unfold Encode
  exact encodeRun_length_le s initState

/-- Witness for C6 at the concrete input [0x41F, 0x1F600]. -/
theorem c6_size_bound_witness :
    ValidStr [0x41F, 0x1F600] ∧ (Encode [0x41F, 0x1F600]).length ≤ 3 * 2 :=
  ⟨by decide, c6_size_bound [0x41F, 0x1F600] (by decide)⟩

/-- Claim C7.  The encoder is append-only: encoding `u ++ v` emits the bytes
of `Encode u` unchanged, followed by the bytes the encoder loop produces for
`v` from the state reached after `u`; hence `Encode u` is a byte-for-byte
prefix of `Encode (u ++ v)`. -/
theorem c7_encoder_append_only (u v : List Nat) :
    Encode (u ++ v) = Encode u ++ (encodeRun (encodeRun initState u).2 v).1 := by
  unfold Encode
  rw [encodeRun_append u initState v]

/-- Claim C8.  Frame property of non-Hiragana/Katakana EXTRA codepoints: the
encoder leaves the whole state unchanged for any extra-ranges codepoint
outside `rangeHK` (both the in-window 1-byte form and the 2-byte EXTRA form),
and the decoder of an EXTRA sequence whose decoded codepoint falls outside
`rangeHK` continues with the same state; only a codepoint in `rangeHK` alters
the state. -/
theorem c8_extra_frame :
    (∀ (st : State) (cp : Nat), inRanges (Int.ofNat cp) rangesExtra = true →
      ¬(rangeHK.1 ≤ cp ∧ cp < rangeHK.2) → (encodeStep st cp).2 = st) ∧
    (∀ (st : State) (b b2 : Nat) (rest : List Nat),
      ¬(b &&& markerAux = markerAux) → b &&& markerExtra = markerExtra →
      ¬(Int.ofNat rangeHK.1 ≤ decodeRanges (Int.ofNat ((b ^^^ markerExtra) <<< 8 ||| b2)) rangesExtra ∧
        decodeRanges (Int.ofNat ((b ^^^ markerExtra) <<< 8 ||| b2)) rangesExtra < Int.ofNat rangeHK.2) →
      decodeRun st (b :: b2 :: rest) =
        Option.map
          (fun p =>
            (goRune (decodeRanges (Int.ofNat ((b ^^^ markerExtra) <<< 8 ||| b2)) rangesExtra) :: p.1,
             p.2))
          (decodeRun st rest)) := by
  constructor
  · intro st cp h hk
    unfold encodeStep
    dsimp only
    split_ifs <;> rfl
  · intro st b b2 rest h1 h2 h3
    conv_lhs => rw [decodeRun.eq_def]
    dsimp only
    simp only [if_neg h1, if_pos h2, if_neg h3]

/-- Witness for C8: the emoji U+1F600 (encoder side, from the initial state)
and the EXTRA sequence `0xBD 0xA0` (decoder side, which decodes to U+1F900). -/
theorem c8_extra_frame_witness :
    (encodeStep initState 0x1F600).2 = initState ∧
    decodeRun initState [0xBD, 0xA0] =
      Option.map
        (fun p =>
          (goRune (decodeRanges (Int.ofNat ((0xBD ^^^ markerExtra) <<< 8 ||| 0xA0)) rangesExtra) :: p.1,
           p.2))
        (decodeRun initState []) :=
  ⟨c8_extra_frame.1 initState 0x1F600 (by decide) (by decide),
   c8_extra_frame.2 initState 0xBD 0xA0 [] (by decide) (by decide) (by decide)⟩

/-- Claim C10.  A complete 2-byte EXTRA sequence whose 12-bit index is not
covered by the extra ranges (`decodeRanges` returns -1) is not an error: the
decoder appends U+FFFD (Go's `string(rune(-1))`), keeps the state unchanged,
and continues with the remaining bytes. -/
theorem c10_invalid_extra_replacement (st : State) (b b2 : Nat) (rest : List Nat)
    (h1 : ¬(b &&& markerAux = markerAux)) (h2 : b &&& markerExtra = markerExtra)
    (h3 : decodeRanges (Int.ofNat ((b ^^^ markerExtra) <<< 8 ||| b2)) rangesExtra = -1) :
    decodeRun st (b :: b2 :: rest) =
      Option.map (fun p => (0xFFFD :: p.1, p.2)) (decodeRun st rest) := by
  conv_lhs => rw [decodeRun.eq_def]
  dsimp only
  simp only [if_neg h1, if_pos h2, h3]
  rw [if_neg (by decide)]
  have hr : goRune (-1) = 0xFFFD := by decide
  rw [hr]

/-- Witness for C10 at the bytes `0xBF 0xFF` (index 0xFFF ≥ 0xEA0). -/
theorem c10_invalid_extra_replacement_witness :
    decodeRanges (Int.ofNat ((0xBF ^^^ markerExtra) <<< 8 ||| 0xFF)) rangesExtra = -1 ∧
    decodeRun initState [0xBF, 0xFF] =
      Option.map (fun p => (0xFFFD :: p.1, p.2)) (decodeRun initState []) :=
  ⟨by decide,
   c10_invalid_extra_replacement initState 0xBF 0xFF [] (by decide) (by decide) (by decide)⟩

lemma decodeRun_truncated (st : State) (b : Nat) (rest : List Nat)
    (h : rest.length + 1 < requiredLen st b) : decodeRun st (b :: rest) = none := by
  unfold requiredLen at h
  conv_lhs => rw [decodeRun.eq_def]
  dsimp only
  by_cases h1 : b &&& markerAux = markerAux
  · rw [if_pos h1] at h
    exact absurd h (by omega)
  · rw [if_neg h1] at h
    rw [if_neg h1]
    by_cases h2 : b &&& markerExtra = markerExtra
    · rw [if_pos h2] at h
      rw [if_pos h2]
      cases rest with
      | nil => rfl
      | cons x xs => exact absurd h (by simp)
    · rw [if_neg h2] at h
      rw [if_neg h2]
      by_cases h3 : b &&& marker21Bit = marker21Bit
      · rw [if_pos h3] at h
        rw [if_pos h3]
        cases rest with
        | nil => rfl
        | cons x xs =>
          cases xs with
          | nil => rfl
          | cons y ys => exact absurd h (by simp)
      · rw [if_neg h3] at h
        rw [if_neg h3]
        by_cases h4 : b &&& marker13Bit = marker13Bit
        · rw [if_pos h4] at h
          rw [if_pos h4]
          cases rest with
          | nil => rfl
          | cons x xs => exact absurd h (by simp)
        · rw [if_neg h4] at h
          rw [if_neg h4]
          by_cases h5 : st.is21Bit = true
          · rw [if_pos h5] at h
            rw [if_pos h5]
            cases rest with
            | nil => rfl
            | cons x xs => exact absurd h (by simp)
          · rw [if_neg h5] at h
            exact absurd h (by omega)

lemma map_cons_append_aux (g : Nat) (st' : State) (R w : List Nat) (out : List Nat) (st1 : State)
    (ih : ∀ out' st1', decodeRun st' R = some (out', st1') → ∀ w',
      decodeRun st' (R ++ w') = Option.map (fun p => (out' ++ p.1, p.2)) (decodeRun st1' w'))
    (h : Option.map (fun p => (g :: p.1, p.2)) (decodeRun st' R) = some (out, st1)) :
    Option.map (fun p => (g :: p.1, p.2)) (decodeRun st' (R ++ w)) =
      Option.map (fun p => (out ++ p.1, p.2)) (decodeRun st1 w) := by
  obtain ⟨p, hp, hf⟩ := Option.map_eq_some'.mp h
  obtain ⟨rfl, rfl⟩ : g :: p.1 = out ∧ p.2 = st1 := by
    simpa [Prod.ext_iff] using hf
  rw [ih p.1 p.2 hp w]
  cases decodeRun p.2 w <;> simp

lemma decodeRun_nil_inv (st : State) (out : List Nat) (st1 : State)
    (h : decodeRun st [] = some (out, st1)) : out = [] ∧ st1 = st := by
  rw [decodeRun.eq_def] at h
  dsimp only at h
  simpa [eq_comm, Prod.ext_iff] using h

lemma decodeRun_append_nil (st : State) (out : List Nat) (st1 : State)
    (h : decodeRun st [] = some (out, st1)) (w : List Nat) :
    decodeRun st ([] ++ w) = Option.map (fun p => (out ++ p.1, p.2)) (decodeRun st1 w) := by
  obtain ⟨hout, hst⟩ := decodeRun_nil_inv st out st1 h
  subst hout
  subst hst
  simp only [List.nil_append]
  cases decodeRun st1 w <;> simp

lemma decodeRun_append_n : ∀ (n : Nat) (u : List Nat), u.length ≤ n →
    ∀ (st : State) (out : List Nat) (st1 : State), decodeRun st u = some (out, st1) → ∀ w,
      decodeRun st (u ++ w) = Option.map (fun p => (out ++ p.1, p.2)) (decodeRun st1 w) := by
  intro n
  induction n with
  | zero =>
    intro u hu st out st1 h w
    have hn : u = [] := List.eq_nil_of_length_eq_zero (Nat.le_zero.mp hu)
    subst hn
    exact decodeRun_append_nil st out st1 h w
  | succ n ih =>
    intro u hu st out st1 h w
    cases u with
    | nil => exact decodeRun_append_nil st out st1 h w
    | cons b rest =>
      simp only [List.length_cons, Nat.add_le_add_iff_right] at hu
      rw [decodeRun.eq_def] at h
      rw [List.cons_append, decodeRun.eq_def]
      dsimp only at h ⊢
      split_ifs at h ⊢
      all_goals
        first
        | exact map_cons_append_aux _ _ _ _ _ _ (fun o s ho w' => ih rest hu _ o s ho w') h
        | (cases rest with
           | nil =>
             dsimp only at h
             exact absurd h (by simp)
           | cons b2 rest2 =>
             first
             | (dsimp only [List.cons_append] at h ⊢
                refine map_cons_append_aux _ _ _ _ _ _ (fun o s ho w' => ih rest2 ?_ _ o s ho w') h
                simp only [List.length_cons] at hu
                omega)
             | (cases rest2 with
                | nil =>
                  dsimp only at h
                  exact absurd h (by simp)
                | cons b3 rest3 =>
                  dsimp only [List.cons_append] at h ⊢
                  refine map_cons_append_aux _ _ _ _ _ _ (fun o s ho w' => ih rest3 ?_ _ o s ho w') h
                  simp only [List.length_cons] at hu
                  omega))

lemma decodeRun_append (u : List Nat) (st0 : State) (out : List Nat) (st1 : State)
    (h : decodeRun st0 u = some (out, st1)) (w : List Nat) :
    decodeRun st0 (u ++ w) = Option.map (fun p => (out ++ p.1, p.2)) (decodeRun st1 w) :=
  decodeRun_append_n u.length u (Nat.le_refl _) st0 out st1 h w

/-- Claim C9.  Truncated input: whenever the input ends with a coding sequence
whose lead byte requires more continuation bytes than remain (`requiredLen`
counts a SHIFT13/EXTRA lead as 2 bytes, a SHIFT21 lead as 3, and a BASE byte
as 2 while `is21Bit` holds), the decoder fails (the Go code panics reading
past the buffer) instead of returning a decoded string. -/
theorem c9_truncated_input (u out : List Nat) (st : State) (b : Nat) (rest : List Nat)
    (hu : decodeRun initState u = some (out, st))
    (h : rest.length + 1 < requiredLen st b) :
    Decode (u ++ b :: rest) = none := by
  unfold Decode
  rw [decodeRun_append u initState out st hu (b :: rest)]
  rw [decodeRun_truncated st b rest h]
  rfl

/-- Witness for C9: the single SHIFT13 lead byte 0x80 with no continuation. -/
theorem c9_truncated_input_witness :
    decodeRun initState [] = some ([], initState) ∧
    ([] : List Nat).length + 1 < requiredLen initState 0x80 ∧
    Decode ([] ++ 0x80 :: []) = none :=
  ⟨by decide, by decide,
   c9_truncated_input [] [] initState 0x80 [] (by decide) (by decide)⟩

lemma inRanges_latin_lt (c : Nat) (h : inRanges (Int.ofNat c) rangesLatin = true) :
    c < 0x7B := by
  simp only [inRanges, rangesLatin, Int.ofNat_eq_natCast, if_pos, if_neg] at h
  split_ifs at h <;> omega

lemma encodeRun_single (st : State) (c : Nat) : (encodeRun st [c]).1 = (encodeStep st c).1 := by
  simp [encodeRun]

lemma latin_step (st : State) (hst : st.auxOffs = 0) (c : Nat)
    (hc : inRanges (Int.ofNat c) rangesLatin = true) :
    encodeStep st c =
      ([byteOf (markerAux ||| (encodeRanges (Int.ofNat c) rangesLatin).toNat)], st) := by
  unfold encodeStep
  rw [if_pos ⟨hst, hc⟩]

lemma latin_step_fst (st : State) (hst : st.auxOffs = 0) (c : Nat)
    (hc : inRanges (Int.ofNat c) rangesLatin = true) :
    (encodeStep st c).1 =
      [byteOf (markerAux ||| (encodeRanges (Int.ofNat c) rangesLatin).toNat)] := by
  rw [latin_step st hst c hc]

lemma latin_byte_bounds : ∀ c : Nat, c < 0x7B →
    inRanges (Int.ofNat c) rangesLatin = true →
    0xC0 ≤ byteOf (markerAux ||| (encodeRanges (Int.ofNat c) rangesLatin).toNat) ∧
    byteOf (markerAux ||| (encodeRanges (Int.ofNat c) rangesLatin).toNat) ≤ 0xFE := by
  decide

/-- Counterexample to claim C3 as stated: from the initial state (whose
`auxOffs` is `0x00C0`, not 0) the Latin remap never fires, so "A" encodes to
its raw ASCII byte `0x41`, not to `[0xC0]`, and that byte is not in
`0xC0..0xFF`. -/
theorem c3_latin_remap_counterexample :
    Encode [0x41] = [0x41] ∧ Encode [0x41] ≠ [0xC0] ∧
    ¬(∀ b ∈ Encode [0x41], 0xC0 ≤ b ∧ b ≤ 0xFF) := by
  refine ⟨by decide, by decide, by decide⟩

/-- Claim C3, amended.  The Latin remap applies exactly in the states with
`auxOffs = 0` (reachable only after an alphabet switch away from Latin, not
in the initial state): there, every codepoint of a text drawn from the Latin
remap ranges (A-Z, a-z, 0-9, space; the hyphen entry of `rangesLatin` is the
empty interval `(0x2D, 0x2C)` and never matches) is emitted as one byte in
`0xC0..0xFE`, leaving the state unchanged, with
A→0xC0, Z→0xD9, a→0xDA, z→0xF3, 0→0xF4, 9→0xFD, space→0xFE. -/
theorem c3_latin_remap_after_shift (st : State) (hst : st.auxOffs = 0) :
    (∀ text : List Nat, (∀ c ∈ text, inRanges (Int.ofNat c) rangesLatin = true) →
      ∀ b ∈ (encodeRun st text).1, 0xC0 ≤ b ∧ b ≤ 0xFF) ∧
    (encodeRun st [0x41]).1 = [0xC0] ∧ (encodeRun st [0x5A]).1 = [0xD9] ∧
    (encodeRun st [0x61]).1 = [0xDA] ∧ (encodeRun st [0x7A]).1 = [0xF3] ∧
    (encodeRun st [0x30]).1 = [0xF4] ∧ (encodeRun st [0x39]).1 = [0xFD] ∧
    (encodeRun st [0x20]).1 = [0xFE] := by
  constructor
  · intro text
    induction text with
    | nil => intro _ b hb; simp [encodeRun] at hb
    | cons c cs ih =>
      intro htext b hb
      have hc := htext c (by simp)
      simp only [encodeRun, latin_step st hst c hc, List.cons_append, List.nil_append] at hb
      rcases List.mem_cons.mp hb with hb1 | hb2
      · subst hb1
        have hlt := inRanges_latin_lt c hc
        have hbb := latin_byte_bounds c hlt hc
        exact ⟨hbb.1, le_trans hbb.2 (by omega)⟩
      · exact ih (fun x hx => htext x (by simp [hx])) b hb2
  refine ⟨?_, ?_, ?_, ?_, ?_, ?_, ?_⟩
  · rw [encodeRun_single, latin_step_fst st hst 0x41 (by decide)]; decide
  · rw [encodeRun_single, latin_step_fst st hst 0x5A (by decide)]; decide
  · rw [encodeRun_single, latin_step_fst st hst 0x61 (by decide)]; decide
  · rw [encodeRun_single, latin_step_fst st hst 0x7A (by decide)]; decide
  · rw [encodeRun_single, latin_step_fst st hst 0x30 (by decide)]; decide
  · rw [encodeRun_single, latin_step_fst st hst 0x39 (by decide)]; decide
  · rw [encodeRun_single, latin_step_fst st hst 0x20 (by decide)]; decide

/-- Witness for C3 in the state `⟨0x0400, 0, false⟩` (auxOffs = 0, e.g. after
a switch to Cyrillic): the byte for "H" is 0xC7 and lies in 0xC0..0xFF, and
"A" encodes to [0xC0]. -/
theorem c3_latin_remap_after_shift_witness :
    (0xC0 ≤ 0xC7 ∧ 0xC7 ≤ 0xFF) ∧
    (encodeRun ⟨0x0400, 0, false⟩ [0x41]).1 = [0xC0] :=
  ⟨(c3_latin_remap_after_shift ⟨0x0400, 0, false⟩ rfl).1 [0x48] (by decide) 0xC7 (by decide),
   (c3_latin_remap_after_shift ⟨0x0400, 0, false⟩ rfl).2.1⟩

lemma shift21_lead (k : Nat) (h : k < 16) :
    byteOf (marker21Bit ||| k) = 0xA0 + k ∧ (0xA0 + k) &&& 0xF0 = 0xA0 ∧
    ∀ st2 : State, requiredLen st2 (0xA0 + k) = 3 := by
  interval_cases k <;> exact ⟨rfl, rfl, fun st2 => rfl⟩

/-- Counterexample to claim C4 as stated: U+102800 is a valid codepoint (at
most 0x10FFFF, not a surrogate) that the encoder emits as a 3-byte SHIFT21
sequence whose leading byte `0xA0 | ((0x102800 - 0x2800) >> 16)` is `0xB0`,
which lies in 0xB0..0xBF (top nibble 0b1011), so the decoder reads the
sequence as EXTRA. -/
theorem c4_shift21_counterexample :
    ValidCp 0x102800 ∧
    (encodeStep initState 0x102800).1 = [0xB0, 0x00, 0x00] ∧
    0xB0 &&& 0xF0 = 0xB0 ∧ 0xB0 ≤ 0xB0 ∧ 0xB0 ≤ 0xBF := by
  refine ⟨by decide, by decide, by decide, by decide, by decide⟩

/-- Claim C4, amended: only for codepoints below 0x102800.  Whenever the
encoder emits a 3-byte sequence (which happens only in the SHIFT21 switch),
its leading byte is `0xA0 + ((cp - 0x2800) >> 16)`, which for `cp < 0x102800`
has top nibble exactly 0b1010 — never 0b1011, so never in 0xB0..0xBF — and is
classified by the decoder's rule as a 3-byte SHIFT21 lead.  (For valid
codepoints 0x102800..0x10FFFF the leading byte is 0xB0 and the claimed
property fails.) -/
theorem c4_shift21_disambiguation (st : State) (cp : Nat) (hcp : cp < 0x102800)
    (h3 : (encodeStep st cp).1.length = 3) :
    (encodeStep st cp).1.head? = some (0xA0 + ((cp - min21BitCp) >>> 16)) ∧
    (0xA0 + ((cp - min21BitCp) >>> 16)) &&& 0xF0 = 0xA0 ∧
    ¬(0xB0 ≤ 0xA0 + ((cp - min21BitCp) >>> 16) ∧ 0xA0 + ((cp - min21BitCp) >>> 16) ≤ 0xBF) ∧
    ∀ st2 : State, requiredLen st2 (0xA0 + ((cp - min21BitCp) >>> 16)) = 3 := by
  have hk : (cp - min21BitCp) >>> 16 < 16 := by
    rw [Nat.shiftRight_eq_div_pow]
    have hlt : cp - min21BitCp < 0x100000 := by unfold min21BitCp; omega
    omega
  obtain ⟨hb, hf, hreq⟩ := shift21_lead _ hk
  unfold encodeStep at h3 ⊢
  dsimp only at h3 ⊢
  split_ifs at h3 ⊢
  all_goals try (simp at h3)
  refine ⟨?_, hf, by intro hcon; omega, hreq⟩
  simp only [List.head?_cons, Option.some.injEq]
  exact hb

/-- Witness for C4 at the concrete codepoint U+10000 from the initial state. -/
theorem c4_shift21_disambiguation_witness :
    0x10000 < 0x102800 ∧ (encodeStep initState 0x10000).1.length = 3 ∧
    ((encodeStep initState 0x10000).1.head? = some (0xA0 + ((0x10000 - min21BitCp) >>> 16)) ∧
     (0xA0 + ((0x10000 - min21BitCp) >>> 16)) &&& 0xF0 = 0xA0 ∧
     ¬(0xB0 ≤ 0xA0 + ((0x10000 - min21BitCp) >>> 16) ∧
       0xA0 + ((0x10000 - min21BitCp) >>> 16) ≤ 0xBF) ∧
     ∀ st2 : State, requiredLen st2 (0xA0 + ((0x10000 - min21BitCp) >>> 16)) = 3) :=
  ⟨by decide, by decide, c4_shift21_disambiguation initState 0x10000 (by decide) (by decide)⟩

/-- Counterexample to claim C5 as stated: encoding U+0100 from the initial
state is a state-changing 13-bit emission, but it sets `offs` to 0 (the Go
`cp <= maxLatinCp` special case), not to `0x100 & 0xFFFFFF80 = 0x100` as the
claim requires. -/
theorem c5_offs_invariant_counterexample :
    (encodeStep initState 0x100).2 ≠ initState ∧
    (encodeStep initState 0x100).2.is21Bit = false ∧
    0x100 &&& offsMask13Bit = 0x100 ∧
    (encodeStep initState 0x100).2.offs = 0 ∧
    (encodeStep initState 0x100).2.offs ≠ 0x100 &&& offsMask13Bit := by
  refine ⟨by decide, by decide, by decide, by decide, by decide⟩

/-- Claim C5, amended: after any state-changing encoder emission, `offs`
equals `(cp - 0x2800) & 0xFFFF8000` when the new mode is 21-bit, and
`cp & 0xFFFFFF80` when it is 13-bit except for `cp ≤ 0x02FF`, where `offs`
becomes 0 (the extended-Latin special case the original claim omits); the
decoder's three state-changing consumptions (EXTRA in the Hiragana/Katakana
range, SHIFT21, SHIFT13) continue with a state whose `offs` satisfies the
same formulas for the emitted codepoint. -/
theorem c5_offs_invariant :
    (∀ (st : State) (cp : Nat), (encodeStep st cp).2 ≠ st →
      ((encodeStep st cp).2.is21Bit = true →
        (encodeStep st cp).2.offs = (cp - min21BitCp) &&& offsMask21Bit) ∧
      ((encodeStep st cp).2.is21Bit = false →
        (encodeStep st cp).2.offs = if cp ≤ maxLatinCp then 0 else cp &&& offsMask13Bit)) ∧
    (∀ (st : State) (b b2 : Nat) (rest : List Nat),
      ¬(b &&& markerAux = markerAux) → b &&& markerExtra = markerExtra →
      Int.ofNat rangeHK.1 ≤ decodeRanges (Int.ofNat ((b ^^^ markerExtra) <<< 8 ||| b2)) rangesExtra →
      decodeRanges (Int.ofNat ((b ^^^ markerExtra) <<< 8 ||| b2)) rangesExtra < Int.ofNat rangeHK.2 →
      decodeRun st (b :: b2 :: rest) =
        Option.map
          (fun p =>
            (goRune (decodeRanges (Int.ofNat ((b ^^^ markerExtra) <<< 8 ||| b2)) rangesExtra) :: p.1,
             p.2))
          (decodeRun
            ⟨(decodeRanges (Int.ofNat ((b ^^^ markerExtra) <<< 8 ||| b2)) rangesExtra).toNat &&&
               offsMask13Bit,
             getAuxOffset st.offs, false⟩ rest)) ∧
    (∀ (st : State) (b b2 b3 : Nat) (rest : List Nat),
      ¬(b &&& markerAux = markerAux) → ¬(b &&& markerExtra = markerExtra) →
      b &&& marker21Bit = marker21Bit →
      decodeRun st (b :: b2 :: b3 :: rest) =
        Option.map
          (fun p =>
            (goRune (Int.ofNat (((b ^^^ marker21Bit) <<< 16 ||| b2 <<< 8 ||| b3) + min21BitCp)) :: p.1,
             p.2))
          (decodeRun
            ⟨((((b ^^^ marker21Bit) <<< 16 ||| b2 <<< 8 ||| b3) + min21BitCp) - min21BitCp) &&&
               offsMask21Bit,
             st.offs, true⟩ rest)) ∧
    (∀ (st : State) (b b2 : Nat) (rest : List Nat),
      ¬(b &&& markerAux = markerAux) → ¬(b &&& markerExtra = markerExtra) →
      ¬(b &&& marker21Bit = marker21Bit) → b &&& marker13Bit = marker13Bit →
      decodeRun st (b :: b2 :: rest) =
        Option.map (fun p => (goRune (Int.ofNat ((b ^^^ marker13Bit) <<< 8 ||| b2)) :: p.1, p.2))
          (decodeRun
            ⟨if ((b ^^^ marker13Bit) <<< 8 ||| b2) ≤ maxLatinCp then 0
              else ((b ^^^ marker13Bit) <<< 8 ||| b2) &&& offsMask13Bit,
             getAuxOffset st.offs, false⟩ rest)) := by
  refine ⟨?_, ?_, ?_, ?_⟩
  · intro st cp hne
    unfold encodeStep at hne ⊢
    dsimp only at hne ⊢
    split_ifs at hne ⊢
    all_goals first
      | exact absurd (by with_reducible rfl) hne
      | exact ⟨fun hb => by simp at hb, fun _ => by with_reducible rfl⟩
      | exact ⟨fun _ => by with_reducible rfl, fun hb => by simp at hb⟩
      | exact ⟨fun hb => by simp at hb, fun _ =>
          absurd ‹cp ≤ maxLatinCp› (by
            have h30 := ‹rangeHK.1 ≤ cp ∧ cp < rangeHK.2›.1
            simp only [rangeHK] at h30
            unfold maxLatinCp
            omega)⟩
  · intro st b b2 rest h1 h2 h3 h4
    conv_lhs => rw [decodeRun.eq_def]
    dsimp only
    simp only [if_neg h1, if_pos h2]
    rw [if_pos (And.intro h3 h4)]
  · intro st b b2 b3 rest h1 h2 h3
    conv_lhs => rw [decodeRun.eq_def]
    dsimp only
    simp only [if_neg h1, if_neg h2, if_pos h3, Nat.add_sub_cancel]
  · intro st b b2 rest h1 h2 h3 h4
    conv_lhs => rw [decodeRun.eq_def]
    dsimp only
    simp only [if_neg h1, if_neg h2, if_neg h3, if_pos h4]

/-- Witness for C5: encoder at U+3042 (Hiragana EXTRA switch) and the decoder
sequences `0xB8 0x42` (EXTRA decoding to U+3042), `0xA0 0x00 0x00` (SHIFT21)
and `0x84 0x1F` (SHIFT13), all from the initial state. -/
theorem c5_offs_invariant_witness :
    ((encodeStep initState 0x3042).2 ≠ initState ∧
     (((encodeStep initState 0x3042).2.is21Bit = true →
        (encodeStep initState 0x3042).2.offs = (0x3042 - min21BitCp) &&& offsMask21Bit) ∧
      ((encodeStep initState 0x3042).2.is21Bit = false →
        (encodeStep initState 0x3042).2.offs =
          if 0x3042 ≤ maxLatinCp then 0 else 0x3042 &&& offsMask13Bit))) ∧
    (decodeRun initState [0xB8, 0x42] =
      Option.map
        (fun p =>
          (goRune (decodeRanges (Int.ofNat ((0xB8 ^^^ markerExtra) <<< 8 ||| 0x42)) rangesExtra) :: p.1,
           p.2))
        (decodeRun
          ⟨(decodeRanges (Int.ofNat ((0xB8 ^^^ markerExtra) <<< 8 ||| 0x42)) rangesExtra).toNat &&&
             offsMask13Bit,
           getAuxOffset initState.offs, false⟩ [])) ∧
    (decodeRun initState [0xA0, 0x00, 0x00] =
      Option.map
        (fun p =>
          (goRune (Int.ofNat (((0xA0 ^^^ marker21Bit) <<< 16 ||| 0x00 <<< 8 ||| 0x00) + min21BitCp)) :: p.1,
           p.2))
        (decodeRun
          ⟨((((0xA0 ^^^ marker21Bit) <<< 16 ||| 0x00 <<< 8 ||| 0x00) + min21BitCp) - min21BitCp) &&&
             offsMask21Bit,
           initState.offs, true⟩ [])) ∧
    (decodeRun initState [0x84, 0x1F] =
      Option.map (fun p => (goRune (Int.ofNat ((0x84 ^^^ marker13Bit) <<< 8 ||| 0x1F)) :: p.1, p.2))
        (decodeRun
          ⟨if ((0x84 ^^^ marker13Bit) <<< 8 ||| 0x1F) ≤ maxLatinCp then 0
            else ((0x84 ^^^ marker13Bit) <<< 8 ||| 0x1F) &&& offsMask13Bit,
           getAuxOffset initState.offs, false⟩ [])) :=
  ⟨⟨by decide, c5_offs_invariant.1 initState 0x3042 (by decide)⟩,
   c5_offs_invariant.2.1 initState 0xB8 0x42 [] (by decide) (by decide) (by decide) (by decide),
   c5_offs_invariant.2.2.1 initState 0xA0 0x00 0x00 [] (by decide) (by decide) (by decide),
   c5_offs_invariant.2.2.2 initState 0x84 0x1F [] (by decide) (by decide) (by decide) (by decide)⟩

end UTFC
